import Mathlib

/-
  Verification of the subprocess RPC client of the ai-implement scripts.

  The embedding models the request correlators of the repository:
  the per-call handler `onLine` of `callMcpMethod`
  (src/scripts/ai-implement.js, lines 56-129), the handler
  `messageHandler` of `executeMcpCommand` (the second script,
  lines 116-146), the session teardown of `implementWithPrompt` and
  `runManualImplementation`, and the top-level environment validation.

  JavaScript values reachable through JSON.parse are modelled by the
  inductive `Json`; the builtin JSON.parse itself is an abstract
  parameter `jparse : String -> Option Json` (none models a thrown
  SyntaxError).  Promise settlement is settle-once, as in JavaScript:
  a second resolve or reject is a no-op.  The event loop is modelled
  by a list of atomic events: a line delivered from the stdout of the
  child, the elapse of the timeout budget of one call, and the death
  of the child process (which ends stdout, closing every readline
  interface, whose close handler clears the pending timer).
-/

/-- A JavaScript value as produced by JSON.parse, plus `undef` for the
undefined value that property access on a non-object yields.  Field
lists of `obj` have unique keys, as JSON.parse guarantees. -/
inductive Json where
  | undef : Json
  | null : Json
  | bool (b : Bool) : Json
  | num (n : Int) : Json
  | str (s : String) : Json
  | arr (elems : List Json) : Json
  | obj (fields : List (String × Json)) : Json

/-- JavaScript truthiness of a value. -/
def Json.truthy : Json → Bool
  | Json.undef => false
  | Json.null => false
  | Json.bool b => b
  | Json.num n => n != 0
  | Json.str s => !s.isEmpty
  | Json.arr _ => true
  | Json.obj _ => true

/-- Property read on a value that is known to be neither null nor
undefined: a missing field, or a field of a non-object, is undefined. -/
def Json.getField : Json → String → Json
  | Json.obj fs, k =>
    match fs.find? (fun p => p.1 == k) with
    | some p => p.2
    | none => Json.undef
  | _, _ => Json.undef

/-- Plain property access `v.k`: on null or undefined it throws a
TypeError (`none`), otherwise it reads the field. -/
def jsAccess : Json → String → Option Json
  | Json.undef, _ => none
  | Json.null, _ => none
  | j, k => some (j.getField k)

/-- Optional chaining `v?.k`: undefined when the receiver is null or
undefined. -/
def jsOptChain : Json → String → Json
  | Json.undef, _ => Json.undef
  | Json.null, _ => Json.undef
  | j, k => j.getField k

/-- Optional chained index `v?.[i]`. -/
def jsOptIndex : Json → Nat → Json
  | Json.undef, _ => Json.undef
  | Json.null, _ => Json.undef
  | Json.arr l, i => l.getD i Json.undef
  | j, i => j.getField (toString i)

/-- Strict equality `v === requestId` against the numeric request id. -/
def isIdMatch : Json → Int → Bool
  | Json.num n, rid => n == rid
  | _, _ => false

mutual

/-- The ToString coercion JavaScript applies to the argument of
JSON.parse. -/
def Json.jsToString : Json → String
  | Json.undef => "undefined"
  | Json.null => "null"
  | Json.bool b => if b then "true" else "false"
  | Json.num n => toString n
  | Json.str s => s
  | Json.arr l => String.intercalate "," (jsArrStrings l)
  | Json.obj _ => "[object Object]"

/-- Array.prototype.toString maps null and undefined elements to the
empty string and joins the rest with commas. -/
def jsArrStrings : List Json → List String
  | [] => []
  | Json.undef :: rest => "" :: jsArrStrings rest
  | Json.null :: rest => "" :: jsArrStrings rest
  | j :: rest => Json.jsToString j :: jsArrStrings rest

end

/-- The two failure modes a call can be rejected with. -/
inductive McpFailure where
  | protocolError (e : Json)
  | timedOut

/-- The settled outcome of one call promise. -/
inductive Outcome where
  | resolved (v : Json)
  | rejected (e : McpFailure)

/-- Promise settlement is first-wins: settling an already settled
promise is a no-op. -/
def settleOpt (cur : Option Outcome) (o : Outcome) : Option Outcome :=
  some (cur.getD o)

/-- The id allocation `Math.floor(Math.random() * 10000)` shared by
both correlators: the random source of the environment is modelled as
an arbitrary natural number reduced into the range 0..9999. -/
def requestIdOf (rand : Nat) : Int :=
  Int.ofNat (rand % 10000)

/-- The timeout budget of `callMcpMethod`: `setTimeout(..., 30000)`,
thirty seconds. -/
def timeoutBudgetMs : Nat := 30000

/-- The state of one call issued by `callMcpMethod`: its request id,
the settlement state of its promise, whether its readline interface is
still open (handler attached), and whether its timeout is still
pending. -/
structure CallState where
  requestId : Int
  outcome : Option Outcome
  rlOpen : Bool
  timeoutActive : Bool
  budgetMs : Nat

/-- The request envelope written to the stdin of the child. -/
structure McpRequest where
  jsonrpc : String
  id : Int
  method : String
  params : Json

/-- `callMcpMethod` issuance (lines 56-77): allocate a random id, write
the `call_tool` envelope, attach a fresh readline interface over the
stdout of the child, and register the 30000 ms timeout. -/
def callMcpMethod (toolName : String) (args : Json) (rand : Nat) :
    McpRequest × CallState :=
  ({ jsonrpc := "2.0"
     id := requestIdOf rand
     method := "call_tool"
     params := Json.obj [("name", Json.str toolName), ("arguments", args)] },
   { requestId := requestIdOf rand
     outcome := none
     rlOpen := true
     timeoutActive := true
     budgetMs := timeoutBudgetMs })

/-- The pending state of a freshly issued `callMcpMethod` call. -/
def pendingCall (rand : Nat) : CallState :=
  (callMcpMethod "call" Json.null rand).2

/-- Settle the promise of a `callMcpMethod` call. -/
def settle (s : CallState) (o : Outcome) : CallState :=
  { s with outcome := settleOpt s.outcome o }

/-- `response.result?.content?.[0]?.text`. -/
def resultTextChain (resp : Json) : Json :=
  jsOptChain (jsOptIndex (jsOptChain (resp.getField "result") "content") 0) "text"

/-- The per-line handler `onLine` of `callMcpMethod` (lines 80-114).
If the readline interface has been closed the handler is detached and
the line is not delivered.  Otherwise: JSON.parse; a parse failure, or
a TypeError reading `.id` of a null, is caught and logged.  On an id
match the interface is closed (its close event clears the timeout);
a truthy `error` field rejects; otherwise the nested
`result.content[0].text` payload, when truthy, is decoded one more
level through JSON.parse with the raw text as fallback; without a
truthy nested text the raw `result` is resolved. -/
def onLine (jparse : String → Option Json) (s : CallState) (line : String) :
    CallState :=
  if s.rlOpen then
    match jparse line with
    | none => s
    | some resp =>
      match jsAccess resp "id" with
      | none => s
      | some idv =>
        if isIdMatch idv s.requestId then
          let s1 := { s with rlOpen := false, timeoutActive := false }
          if (resp.getField "error").truthy then
            settle s1 (Outcome.rejected (McpFailure.protocolError (resp.getField "error")))
          else
            let rt := resultTextChain resp
            if rt.truthy then
              match jparse rt.jsToString with
              | some parsed => settle s1 (Outcome.resolved parsed)
              | none => settle s1 (Outcome.resolved rt)
            else
              settle s1 (Outcome.resolved (resp.getField "result"))
        else s
  else s

/-- The timeout callback of `callMcpMethod` (lines 118-122): if the
timer is still pending it closes the readline interface and rejects
with the timeout error. -/
def onTimeout (s : CallState) : CallState :=
  if s.timeoutActive then
    settle { s with rlOpen := false, timeoutActive := false }
      (Outcome.rejected McpFailure.timedOut)
  else s

/-- Death of the child process: its stdout ends, the readline
interface closes, and the close handler clears the pending timeout.
The promise is not settled. -/
def onKill (s : CallState) : CallState :=
  { s with rlOpen := false, timeoutActive := false }

/-- Whether a line would match a given request id in the handler:
it parses, `.id` does not throw, and the id strictly equals the
request id. -/
def lineMatches (jparse : String → Option Json) (rid : Int) (l : String) : Bool :=
  match jparse l with
  | none => false
  | some resp =>
    match jsAccess resp "id" with
    | none => false
    | some idv => isIdMatch idv rid

/-- The state of one call issued by `executeMcpCommand` of the second
script: a request id, a promise, and a handler attached to the shared
readline interface.  No timeout is registered. -/
structure ExecCallState where
  requestId : Int
  outcome : Option Outcome
  handlerOn : Bool

/-- `executeMcpCommand` issuance (lines 116-126): allocate a random
id, write the envelope with the command as method, attach
`messageHandler` to the shared readline interface.  No setTimeout
call appears anywhere in this correlator. -/
def executeMcpCommand (command : String) (args : Json) (rand : Nat) :
    McpRequest × ExecCallState :=
  ({ jsonrpc := "2.0"
     id := requestIdOf rand
     method := command
     params := args },
   { requestId := requestIdOf rand
     outcome := none
     handlerOn := true })

/-- The pending state of a freshly issued `executeMcpCommand` call. -/
def pendingExec (rand : Nat) : ExecCallState :=
  (executeMcpCommand "cmd" Json.null rand).2

/-- Settle the promise of an `executeMcpCommand` call. -/
def settleExec (s : ExecCallState) (o : Outcome) : ExecCallState :=
  { s with outcome := settleOpt s.outcome o }

/-- The `messageHandler` of `executeMcpCommand` (lines 128-142):
on an id match it detaches itself and rejects on a truthy `error`
field, otherwise resolves the raw `result` field; parse failures are
caught and logged. -/
def messageHandler (jparse : String → Option Json) (s : ExecCallState)
    (line : String) : ExecCallState :=
  if s.handlerOn then
    match jparse line with
    | none => s
    | some resp =>
      match jsAccess resp "id" with
      | none => s
      | some idv =>
        if isIdMatch idv s.requestId then
          let s1 := { s with handlerOn := false }
          if (resp.getField "error").truthy then
            settleExec s1 (Outcome.rejected (McpFailure.protocolError (resp.getField "error")))
          else
            settleExec s1 (Outcome.resolved (resp.getField "result"))
        else s
  else s

/-- An atomic event of the session: a complete line delivered from the
stdout of the child, the elapse of the timeout budget registered for
call `i` (a timer callback runs only if one was registered and is
still pending), or the death of the child process. -/
inductive Ev where
  | line (s : String)
  | timeout (i : Nat)
  | kill
deriving DecidableEq

/-- One event applied to one `executeMcpCommand` call: lines go to its
handler; the elapse of a timeout budget runs nothing, because
`executeMcpCommand` registers no timer; the death of the child closes
the shared readline interface, detaching the handler without settling
the promise. -/
def execStep (jparse : String → Option Json) (s : ExecCallState) :
    Ev → ExecCallState
  | Ev.line l => messageHandler jparse s l
  | Ev.timeout _ => s
  | Ev.kill => { s with handlerOn := false }

/-- Run an `executeMcpCommand` call over a sequence of events. -/
def runExec (jparse : String → Option Json) (s : ExecCallState)
    (evs : List Ev) : ExecCallState :=
  evs.foldl (execStep jparse) s

/-- The session: the calls issued through `callMcpMethod`, in issue
order, and whether the child process is alive. -/
structure Sys where
  calls : List CallState
  alive : Bool

/-- One event applied to the call at index `i`: every open readline
interface receives every line; a timeout elapse fires only the timer
of its own call; the death of the child closes every interface. -/
def evCall (jparse : String → Option Json) (e : Ev) (i : Nat)
    (c : CallState) : CallState :=
  match e with
  | Ev.line l => onLine jparse c l
  | Ev.timeout j => if j = i then onTimeout c else c
  | Ev.kill => onKill c

/-- Apply one event to every call, tracking indices from `k`. -/
def stepCalls (jparse : String → Option Json) (e : Ev) :
    Nat → List CallState → List CallState
  | _, [] => []
  | k, c :: cs => evCall jparse e k c :: stepCalls jparse e (k + 1) cs

/-- One event applied to the whole session. -/
def step (jparse : String → Option Json) (sys : Sys) (e : Ev) : Sys :=
  { calls := stepCalls jparse e 0 sys.calls
    alive := match e with | Ev.kill => false | _ => sys.alive }

/-- Run the session over a sequence of events. -/
def run (jparse : String → Option Json) (sys : Sys) (evs : List Ev) : Sys :=
  evs.foldl (step jparse) sys

/-- The view of a single call across a run of events. -/
def runCall (jparse : String → Option Json) (i : Nat) (evs : List Ev)
    (c : CallState) : CallState :=
  evs.foldl (fun c e => evCall jparse e i c) c

/-- A batch of calls issued concurrently through `callMcpMethod`, one
per random draw, against a live child. -/
def initSys (draws : List Nat) : Sys :=
  { calls := draws.map pendingCall, alive := true }

/-- The call at index `i`. -/
def callAt (sys : Sys) (i : Nat) : Option CallState :=
  sys.calls[i]?

/-- The settled outcome of the call at index `i`, none while pending. -/
def settledAt (sys : Sys) (i : Nat) : Option Outcome :=
  (callAt sys i).bind (fun c => c.outcome)

/-- `mcpProcess.kill()`: the child dies, every readline interface
closes, every pending timer is cleared; no promise is settled. -/
def killSys (sys : Sys) : Sys :=
  { calls := sys.calls.map onKill, alive := false }

/-- No line event of the sequence matches the given request id. -/
def noMatchingLine (jparse : String → Option Json) (rid : Int)
    (evs : List Ev) : Bool :=
  evs.all (fun e =>
    match e with
    | Ev.line l => !(lineMatches jparse rid l)
    | _ => true)

/-- The sequence contains no kill event. -/
def killFreeB (evs : List Ev) : Bool :=
  evs.all (fun e => match e with | Ev.kill => false | _ => true)

/-- The sequence contains the elapse of the timeout budget of call `i`. -/
def hasTimeout (i : Nat) (evs : List Ev) : Bool :=
  evs.any (fun e => match e with | Ev.timeout j => j == i | _ => false)

/-- The state the timeout callback leaves a fresh call in. -/
def timedOutCall (rand : Nat) : CallState :=
  { requestId := requestIdOf rand
    outcome := some (Outcome.rejected McpFailure.timedOut)
    rlOpen := false
    timeoutActive := false
    budgetMs := timeoutBudgetMs }

/-- `implementWithPrompt` (lines 131-372): spawn the child; if the
spawn throws, the process variable stays null and the finally block
kills nothing; otherwise the body runs to a result or a thrown error,
and the finally block kills the child on either path. -/
def implementWithPrompt {α β : Type} (spawnErr : α) (spawn : Option Sys)
    (body : Sys → Except α β × Sys) : Except α β × Option Sys :=
  match spawn with
  | none => (Except.error spawnErr, none)
  | some sys0 =>
    match body sys0 with
    | (r, sys1) => (r, some (killSys sys1))

/-- `runManualImplementation` (lines 105-228): on the success path the
child is killed before returning; in the catch block the child is
killed before the error is rethrown. -/
def runManualImplementation {α β : Type} (start : Sys)
    (body : Sys → Except α β × Sys) : Except α β × Sys :=
  match body start with
  | (Except.ok r, s1) => (Except.ok r, killSys s1)
  | (Except.error e, s1) => (Except.error e, killSys s1)

/-- The seven environment variables read at module load. -/
structure EnvVars where
  prBody : Option String
  repoOwner : Option String
  repoName : Option String
  prNumber : Option String
  branchName : Option String
  aiApiKey : Option String
  githubToken : Option String

/-- Truthiness of an environment variable: absent or empty is falsy. -/
def envTruthy : Option String → Bool
  | none => false
  | some s => !s.isEmpty

/-- The validation condition of lines 21-24: every variable truthy. -/
def envValid (e : EnvVars) : Bool :=
  envTruthy e.prBody && envTruthy e.repoOwner && envTruthy e.repoName &&
    envTruthy e.prNumber && envTruthy e.branchName && envTruthy e.aiApiKey &&
    envTruthy e.githubToken

/-- What the module top level does before anything else runs:
`exited` means process.exit was reached, so no child process is
spawned and no call is issued; `proceeded` means execution continues
into main. -/
inductive StartOutcome where
  | exited (code : Nat) (log : String)
  | proceeded
deriving DecidableEq

/-- The top-level environment validation (lines 20-24). -/
def programStart (e : EnvVars) : StartOutcome :=
  if envValid e then StartOutcome.proceeded
  else StartOutcome.exited 1 "Missing required environment variables"

/-- A success response for id 7 whose payload nests serialized data
inside `result.content[0].text`. -/
def respNest : Json :=
  Json.obj [("id", Json.num 7),
    ("result", Json.obj [("content",
      Json.arr [Json.obj [("text", Json.str "innerpayload")]])])]

/-- A concrete JSON.parse used by the witnesses: four recognised
lines and everything else a SyntaxError. -/
def jparseW : String → Option Json
  | "r7" => some (Json.obj [("id", Json.num 7), ("result", Json.num 1)])
  | "r9" => some (Json.obj [("id", Json.num 9), ("result", Json.num 2)])
  | "rnest" => some respNest
  | "innerpayload" => some (Json.obj [("sha", Json.str "abc123")])
  | _ => none

/-- Settling a promise that already holds an outcome keeps it. -/
theorem settleOpt_some (cur : Option Outcome) (o x : Outcome)
    (h : cur = some x) : settleOpt cur o = some x := by
  subst h; rfl

/-- A closed readline interface delivers no line to the handler. -/
theorem onLine_closed (jparse : String → Option Json) (c : CallState)
    (l : String) (h : c.rlOpen = false) : onLine jparse c l = c := by
  simp [onLine, h]

/-- A line JSON.parse throws on is caught and changes nothing. -/
theorem onLine_parseFail (jparse : String → Option Json) (c : CallState)
    (l : String) (h : jparse l = none) : onLine jparse c l = c := by
  simp [onLine, h]

/-- A line that does not match the request id changes nothing. -/
theorem onLine_noMatch (jparse : String → Option Json) (c : CallState)
    (l : String) (h : lineMatches jparse c.requestId l = false) :
    onLine jparse c l = c := by
  cases hp : jparse l with
  | none => exact onLine_parseFail jparse c l hp
  | some resp =>
    cases ha : jsAccess resp "id" with
    | none => simp [onLine, hp, ha]
    | some idv =>
      have h2 : isIdMatch idv c.requestId = false := by
        simpa [lineMatches, hp, ha] using h
      simp [onLine, hp, ha, h2]

/-- The handler never overwrites a settled promise. -/
theorem onLine_outcome_some (jparse : String → Option Json) (c : CallState)
    (l : String) (o : Outcome) (h : c.outcome = some o) :
    (onLine jparse c l).outcome = some o := by
  simp only [onLine]
  repeat' split
  all_goals simp_all [settle, settleOpt]

/-- The timeout callback never overwrites a settled promise. -/
theorem onTimeout_outcome_some (c : CallState) (o : Outcome)
    (h : c.outcome = some o) : (onTimeout c).outcome = some o := by
  simp only [onTimeout]
  split
  · simp_all [settle, settleOpt]
  · exact h

/-- If an unsettled call still has its timer pending, the timeout
callback settles it. -/
theorem onTimeout_of_inv (c : CallState)
    (hI : c.outcome = none → c.timeoutActive = true) :
    ∃ o, (onTimeout c).outcome = some o := by
  cases ho : c.outcome with
  | some o => exact ⟨o, onTimeout_outcome_some c o ho⟩
  | none =>
    refine ⟨Outcome.rejected McpFailure.timedOut, ?_⟩
    simp [onTimeout, hI ho, settle, settleOpt, ho]

/-- The death of the child does not settle a call. -/
theorem onKill_outcome (c : CallState) : (onKill c).outcome = c.outcome := rfl

/-- No single event overwrites a settled promise. -/
theorem evCall_outcome_some (jparse : String → Option Json) (e : Ev) (i : Nat)
    (c : CallState) (o : Outcome) (h : c.outcome = some o) :
    (evCall jparse e i c).outcome = some o := by
  cases e with
  | line l => exact onLine_outcome_some jparse c l o h
  | timeout j =>
    simp only [evCall]
    split
    · exact onTimeout_outcome_some c o h
    · exact h
  | kill => exact h

/-- The handler preserves the invariant that an unsettled call keeps
its timer pending: it clears the timer only in the same step in which
it settles the promise. -/
theorem onLine_inv (jparse : String → Option Json) (c : CallState) (l : String)
    (hI : c.outcome = none → c.timeoutActive = true) :
    (onLine jparse c l).outcome = none → (onLine jparse c l).timeoutActive = true := by
  simp only [onLine]
  repeat' split
  all_goals simp_all [settle, settleOpt]

/-- Every event except the death of the child preserves the pending
timer invariant. -/
theorem evCall_inv (jparse : String → Option Json) (e : Ev) (i : Nat)
    (c : CallState) (hk : e ≠ Ev.kill)
    (hI : c.outcome = none → c.timeoutActive = true) :
    (evCall jparse e i c).outcome = none →
      (evCall jparse e i c).timeoutActive = true := by
  cases e with
  | line l => exact onLine_inv jparse c l hI
  | timeout j =>
    simp only [evCall]
    split
    · simp only [onTimeout]
      split
      · simp [settle, settleOpt]
      · intro h
        exact hI h
    · exact hI
  | kill => exact absurd rfl hk

/-- Indexing through one system step: every call advances by its own
per-call transition. -/
theorem stepCalls_getElem (jparse : String → Option Json) (e : Ev) :
    ∀ (l : List CallState) (k i : Nat),
      (stepCalls jparse e k l)[i]? = (l[i]?).map (evCall jparse e (k + i)) := by
  intro l
  induction l with
  | nil => intro k i; simp [stepCalls]
  | cons c cs ih =>
    intro k i
    cases i with
    | zero => simp [stepCalls]
    | succ i =>
      simp only [stepCalls, List.getElem?_cons_succ]
      rw [ih (k + 1) i]
      have hki : k + 1 + i = k + (i + 1) := by omega
      rw [hki]

/-- The call at index `i` after one step. -/
theorem callAt_step (jparse : String → Option Json) (sys : Sys) (e : Ev)
    (i : Nat) :
    callAt (step jparse sys e) i = (callAt sys i).map (evCall jparse e i) := by
  simp [callAt, step, stepCalls_getElem]

/-- The call at index `i` after a whole run is its own per-call run. -/
theorem callAt_run (jparse : String → Option Json) (evs : List Ev) :
    ∀ (sys : Sys) (i : Nat),
      callAt (run jparse sys evs) i = (callAt sys i).map (runCall jparse i evs) := by
  induction evs with
  | nil =>
    intro sys i
    show callAt sys i = Option.map (runCall jparse i []) (callAt sys i)
    cases callAt sys i <;> rfl
  | cons e evs ih =>
    intro sys i
    show callAt (run jparse (step jparse sys e) evs) i = _
    rw [ih, callAt_step]
    cases callAt sys i with
    | none => rfl
    | some c => rfl

/-- Splitting a run at any point. -/
theorem run_append (jparse : String → Option Json) (sys : Sys)
    (l1 l2 : List Ev) :
    run jparse sys (l1 ++ l2) = run jparse (run jparse sys l1) l2 := by
  simp [run, List.foldl_append]

/-- A settled promise is never overwritten along any per-call run. -/
theorem runCall_outcome_some (jparse : String → Option Json) (i : Nat)
    (evs : List Ev) :
    ∀ (c : CallState) (o : Outcome), c.outcome = some o →
      (runCall jparse i evs c).outcome = some o := by
  induction evs with
  | nil => intro c o h; exact h
  | cons e evs ih =>
    intro c o h
    exact ih _ o (evCall_outcome_some jparse e i c o h)

/-- A settled call stays settled with the same outcome along any run. -/
theorem settledAt_run_some (jparse : String → Option Json) (sys : Sys)
    (evs : List Ev) (i : Nat) (o : Outcome)
    (h : settledAt sys i = some o) :
    settledAt (run jparse sys evs) i = some o := by
  unfold settledAt at h ⊢
  rw [callAt_run]
  cases hc : callAt sys i with
  | none => rw [hc] at h; simp at h
  | some c =>
    rw [hc] at h
    simp only [Option.some_bind] at h
    simp [runCall_outcome_some jparse i evs c o h]

/-- In a run without a kill event, a call whose timer invariant holds
is settled by the elapse of its own timeout budget. -/
theorem runCall_settles (jparse : String → Option Json) (i : Nat) :
    ∀ (evs : List Ev) (c : CallState), killFreeB evs = true →
      (c.outcome = none → c.timeoutActive = true) →
      hasTimeout i evs = true →
      ∃ o, (runCall jparse i evs c).outcome = some o := by
  intro evs
  induction evs with
  | nil => intro c _ _ ht; simp [hasTimeout] at ht
  | cons e evs ih =>
    intro c hk hI ht
    have hk' : killFreeB evs = true := by
      simp only [killFreeB, List.all_cons, Bool.and_eq_true] at hk
      exact hk.2
    cases e with
    | kill => simp [killFreeB, List.all_cons] at hk
    | line l =>
      have ht' : hasTimeout i evs = true := by
        simpa [hasTimeout, List.any_cons] using ht
      exact ih _ hk' (onLine_inv jparse c l hI) ht'
    | timeout j =>
      by_cases hj : j = i
      · obtain ⟨o, ho⟩ := onTimeout_of_inv c hI
        refine ⟨o, ?_⟩
        show (runCall jparse i evs (evCall jparse (Ev.timeout j) i c)).outcome = some o
        have he : evCall jparse (Ev.timeout j) i c = onTimeout c := by
          simp [evCall, hj]
        rw [he]
        exact runCall_outcome_some jparse i evs _ o ho
      · have ht' : hasTimeout i evs = true := by
          simp only [hasTimeout, List.any_cons, Bool.or_eq_true] at ht
          rcases ht with ht | ht
          · exact absurd (by simpa using ht) hj
          · exact ht
        have he : evCall jparse (Ev.timeout j) i c = c := by
          simp [evCall, hj]
        have := ih (evCall jparse (Ev.timeout j) i c) hk'
          (by rw [he]; exact hI) ht'
        exact this

/-- A line JSON.parse throws on changes nothing in `messageHandler`. -/
theorem messageHandler_parseFail (jparse : String → Option Json)
    (s : ExecCallState) (l : String) (h : jparse l = none) :
    messageHandler jparse s l = s := by
  simp [messageHandler, h]

/-- A detached `messageHandler`, or a line that does not match the
request id, changes nothing. -/
theorem messageHandler_skip (jparse : String → Option Json)
    (s : ExecCallState) (l : String)
    (h : s.handlerOn = false ∨ lineMatches jparse s.requestId l = false) :
    messageHandler jparse s l = s := by
  rcases h with h | h
  · simp [messageHandler, h]
  · cases hp : jparse l with
    | none => exact messageHandler_parseFail jparse s l hp
    | some resp =>
      cases ha : jsAccess resp "id" with
      | none => simp [messageHandler, hp, ha]
      | some idv =>
        have h2 : isIdMatch idv s.requestId = false := by
          simpa [lineMatches, hp, ha] using h
        simp [messageHandler, hp, ha, h2]

/-- `messageHandler` never overwrites a settled promise. -/
theorem messageHandler_outcome_some (jparse : String → Option Json)
    (s : ExecCallState) (l : String) (o : Outcome)
    (h : s.outcome = some o) :
    (messageHandler jparse s l).outcome = some o := by
  simp only [messageHandler]
  repeat' split
  all_goals simp_all [settleExec, settleOpt]

/-- No single event overwrites a settled `executeMcpCommand` promise. -/
theorem execStep_outcome_some (jparse : String → Option Json)
    (s : ExecCallState) (e : Ev) (o : Outcome) (h : s.outcome = some o) :
    (execStep jparse s e).outcome = some o := by
  cases e with
  | line l => exact messageHandler_outcome_some jparse s l o h
  | timeout _ => exact h
  | kill => exact h

/-- A settled `executeMcpCommand` promise keeps its outcome along any
run. -/
theorem runExec_outcome_some (jparse : String → Option Json)
    (evs : List Ev) :
    ∀ (s : ExecCallState) (o : Outcome), s.outcome = some o →
      (runExec jparse s evs).outcome = some o := by
  induction evs with
  | nil => intro s o h; exact h
  | cons e evs ih =>
    intro s o h
    exact ih _ o (execStep_outcome_some jparse s e o h)

/-- Without a matching response line, an `executeMcpCommand` call is
never settled: no timeout exists, and neither the elapse of any
budget nor the death of the child settles its promise. -/
theorem runExec_noMatch_outcome (jparse : String → Option Json) :
    ∀ (evs : List Ev) (s : ExecCallState),
      noMatchingLine jparse s.requestId evs = true →
      (runExec jparse s evs).outcome = s.outcome ∧
        (runExec jparse s evs).requestId = s.requestId := by
  intro evs
  induction evs with
  | nil => intro s _; exact ⟨rfl, rfl⟩
  | cons e evs ih =>
    intro s hm
    have hm2 : noMatchingLine jparse s.requestId evs = true := by
      simp only [noMatchingLine, List.all_cons, Bool.and_eq_true] at hm
      exact hm.2
    cases e with
    | line l =>
      have hl : lineMatches jparse s.requestId l = false := by
        simp only [noMatchingLine, List.all_cons, Bool.and_eq_true] at hm
        simpa using hm.1
      have he : messageHandler jparse s l = s :=
        messageHandler_skip jparse s l (Or.inr hl)
      have hstep : runExec jparse s (Ev.line l :: evs) =
          runExec jparse (messageHandler jparse s l) evs := rfl
      rw [hstep, he]
      exact ih s hm2
    | timeout j =>
      have hstep : runExec jparse s (Ev.timeout j :: evs) =
          runExec jparse s evs := rfl
      rw [hstep]
      exact ih s hm2
    | kill =>
      have := ih { s with handlerOn := false } (by simpa using hm2)
      exact this

/-- A call whose outcome is the timeout failure has a closed readline
interface and no pending timer: only the timeout callback produces
that outcome, and it closes both in the same step. -/
def TimedOutClosed (c : CallState) : Prop :=
  c.outcome = some (Outcome.rejected McpFailure.timedOut) →
    c.rlOpen = false ∧ c.timeoutActive = false

/-- The handler preserves `TimedOutClosed`. -/
theorem onLine_timedOutClosed (jparse : String → Option Json)
    (c : CallState) (l : String) (h : TimedOutClosed c) :
    TimedOutClosed (onLine jparse c l) := by
  simp only [onLine]
  repeat' split
  all_goals
    simp_all [TimedOutClosed, settle, settleOpt]

/-- Every event preserves `TimedOutClosed`. -/
theorem evCall_timedOutClosed (jparse : String → Option Json) (e : Ev)
    (i : Nat) (c : CallState) (h : TimedOutClosed c) :
    TimedOutClosed (evCall jparse e i c) := by
  cases e with
  | line l => exact onLine_timedOutClosed jparse c l h
  | timeout j =>
    simp only [evCall]
    split
    · simp only [onTimeout]
      split
      · intro _; exact ⟨rfl, rfl⟩
      · exact h
    · exact h
  | kill => intro _; exact ⟨rfl, rfl⟩

/-- `TimedOutClosed` holds along every per-call run started from it. -/
theorem runCall_timedOutClosed (jparse : String → Option Json) (i : Nat)
    (evs : List Ev) :
    ∀ (c : CallState), TimedOutClosed c →
      TimedOutClosed (runCall jparse i evs c) := by
  induction evs with
  | nil => intro c h; exact h
  | cons e evs ih =>
    intro c h
    exact ih _ (evCall_timedOutClosed jparse e i c h)

/-- A freshly issued call satisfies `TimedOutClosed` vacuously. -/
theorem pendingCall_timedOutClosed (r : Nat) :
    TimedOutClosed (pendingCall r) := by
  intro h
  simp [pendingCall, callMcpMethod] at h

/-- The timeout callback turns a fresh call into the timed-out state. -/
theorem onTimeout_pendingCall (r : Nat) :
    onTimeout (pendingCall r) = timedOutCall r := rfl

/-- The timeout callback leaves the timed-out state alone. -/
theorem onTimeout_timedOutCall (r : Nat) :
    onTimeout (timedOutCall r) = timedOutCall r := rfl

/-- With no matching line and no kill event, a fresh call stays fresh
until its timeout budget elapses, and is the timed-out state from
then on. -/
theorem runCall_twoState (jparse : String → Option Json) (i : Nat) (r : Nat) :
    ∀ (evs : List Ev) (c : CallState),
      (c = pendingCall r ∨ c = timedOutCall r) →
      noMatchingLine jparse (requestIdOf r) evs = true →
      killFreeB evs = true →
      ((runCall jparse i evs c = pendingCall r ∨
          runCall jparse i evs c = timedOutCall r) ∧
        (hasTimeout i evs = true → runCall jparse i evs c = timedOutCall r)) := by
  intro evs
  induction evs with
  | nil =>
    intro c hc _ _
    refine ⟨hc, ?_⟩
    intro ht
    simp [hasTimeout] at ht
  | cons e evs ih =>
    intro c hc hm hk
    have hm2 : noMatchingLine jparse (requestIdOf r) evs = true := by
      simp only [noMatchingLine, List.all_cons, Bool.and_eq_true] at hm
      exact hm.2
    have hk2 : killFreeB evs = true := by
      simp only [killFreeB, List.all_cons, Bool.and_eq_true] at hk
      exact hk.2
    have hrid : c.requestId = requestIdOf r := by
      rcases hc with hc | hc <;> subst hc <;> rfl
    cases e with
    | kill => simp [killFreeB, List.all_cons] at hk
    | line l =>
      have hl : lineMatches jparse (requestIdOf r) l = false := by
        simp only [noMatchingLine, List.all_cons, Bool.and_eq_true] at hm
        simpa using hm.1
      have he : evCall jparse (Ev.line l) i c = c := by
        show onLine jparse c l = c
        exact onLine_noMatch jparse c l (by rw [hrid]; exact hl)
      have hstep : runCall jparse i (Ev.line l :: evs) c =
          runCall jparse i evs (evCall jparse (Ev.line l) i c) := rfl
      rw [hstep, he]
      have hres := ih c hc hm2 hk2
      refine ⟨hres.1, ?_⟩
      intro ht
      have ht2 : hasTimeout i evs = true := by
        simpa [hasTimeout, List.any_cons] using ht
      exact hres.2 ht2
    | timeout j =>
      have hstep : runCall jparse i (Ev.timeout j :: evs) c =
          runCall jparse i evs (evCall jparse (Ev.timeout j) i c) := rfl
      by_cases hj : j = i
      · have he : evCall jparse (Ev.timeout j) i c = timedOutCall r := by
          simp only [evCall, hj, if_pos rfl]
          rcases hc with hc | hc <;> subst hc
          · exact onTimeout_pendingCall r
          · exact onTimeout_timedOutCall r
        rw [hstep, he]
        have hres := ih (timedOutCall r) (Or.inr rfl) hm2 hk2
        refine ⟨hres.1, fun _ => ?_⟩
        rcases hres.1 with h1 | h1
        · have : (timedOutCall r).outcome = some (Outcome.rejected McpFailure.timedOut) := rfl
          have h2 := runCall_outcome_some jparse i evs (timedOutCall r)
            (Outcome.rejected McpFailure.timedOut) this
          rw [h1] at h2
          simp [pendingCall, callMcpMethod] at h2
        · exact h1
      · have he : evCall jparse (Ev.timeout j) i c = c := by
          simp [evCall, hj]
        rw [hstep, he]
        have hres := ih c hc hm2 hk2
        refine ⟨hres.1, ?_⟩
        intro ht
        have ht2 : hasTimeout i evs = true := by
          simp only [hasTimeout, List.any_cons, Bool.or_eq_true] at ht
          rcases ht with ht | ht
          · exact absurd (by simpa using ht) hj
          · exact ht
        exact hres.2 ht2

/-- A line no open call matches leaves the call list of the session
unchanged. -/
theorem stepCalls_line_id (jparse : String → Option Json) (l : String) :
    ∀ (cs : List CallState) (k : Nat),
      (∀ c ∈ cs, onLine jparse c l = c) →
      stepCalls jparse (Ev.line l) k cs = cs := by
  intro cs
  induction cs with
  | nil => intro k _; rfl
  | cons c cs ih =>
    intro k h
    simp only [stepCalls, evCall]
    rw [h c (by simp), ih (k + 1) (fun c hc => h c (by simp [hc]))]

/-- The kill step is the `killSys` teardown: index-independent. -/
theorem stepCalls_kill_map (jparse : String → Option Json) :
    ∀ (cs : List CallState) (k : Nat),
      stepCalls jparse Ev.kill k cs = cs.map onKill := by
  intro cs
  induction cs with
  | nil => intro k; rfl
  | cons c cs ih =>
    intro k
    simp only [stepCalls, evCall, List.map_cons]
    rw [ih (k + 1)]

/-- Killing the session as an event equals the `killSys` teardown. -/
theorem step_kill_eq_killSys (jparse : String → Option Json) (sys : Sys) :
    step jparse sys Ev.kill = killSys sys := by
  simp [step, killSys, stepCalls_kill_map]

/-- Splitting an `executeMcpCommand` run at any point. -/
theorem runExec_append (jparse : String → Option Json) (s : ExecCallState)
    (l1 l2 : List Ev) :
    runExec jparse s (l1 ++ l2) = runExec jparse (runExec jparse s l1) l2 := by
  simp [runExec, List.foldl_append]

/-- C1 (counterexample): a call issued through `executeMcpCommand` can
be settled zero times.  With id 7 pending, the child delivers one
diagnostic line and the 30-time-unit budget elapses; the call is still
unsettled, and because `executeMcpCommand` registers no timeout, no
pending mechanism other than a future matching line can ever settle
it.  This refutes the claim that every call issued through the
correlator (callMcpMethod / executeMcpCommand) is settled exactly
once, never zero times. -/
theorem executeMcpCommand_zero_settlements_cex :
    (runExec jparseW (pendingExec 7) [Ev.line "noise", Ev.timeout 0]).outcome = none ∧
    (runExec jparseW (pendingExec 7) [Ev.line "noise", Ev.timeout 0]).handlerOn = true :=
  ⟨rfl, rfl⟩

/-- C1 (amended): for calls issued concurrently through
`callMcpMethod` with pairwise distinct ids, every call is settled at
most once — a settled outcome is never changed by later lines or
timeouts — and exactly once in any run in which the child stays alive
and the timeout budget of every call elapses.  A call issued through
`executeMcpCommand` is also settled at most once, but it can be
settled zero times: it has no timeout, and while no matching response
line is delivered its promise stays pending forever. -/
theorem correlator_settled_exactly_once_amended (jparse : String → Option Json)
    (draws : List Nat)
    (_hdist : (draws.map requestIdOf).Pairwise (fun a b => a ≠ b))
    (evs : List Ev) :
    (∀ (pre post : List Ev) (i : Nat) (o : Outcome), evs = pre ++ post →
        settledAt (run jparse (initSys draws) pre) i = some o →
        settledAt (run jparse (initSys draws) evs) i = some o) ∧
    (killFreeB evs = true →
      (∀ i, i < draws.length → hasTimeout i evs = true) →
      ∀ i, i < draws.length →
        ∃ o, settledAt (run jparse (initSys draws) evs) i = some o) ∧
    (∀ (r : Nat) (pre post : List Ev) (o : Outcome),
        (runExec jparse (pendingExec r) pre).outcome = some o →
        (runExec jparse (pendingExec r) (pre ++ post)).outcome = some o) ∧
    (∀ (r : Nat) (evs2 : List Ev),
        noMatchingLine jparse (requestIdOf r) evs2 = true →
        (runExec jparse (pendingExec r) evs2).outcome = none) := by
  refine ⟨?_, ?_, ?_, ?_⟩
  · intro pre post i o hsplit hpre
    subst hsplit
    rw [run_append]
    exact settledAt_run_some jparse _ post i o hpre
  · intro hkf hall i hi
    have hcall : callAt (initSys draws) i = some (pendingCall (draws.get ⟨i, hi⟩)) := by
      simp [callAt, initSys, List.getElem?_eq_getElem, hi]
    obtain ⟨o, ho⟩ := runCall_settles jparse i evs (pendingCall (draws.get ⟨i, hi⟩))
      hkf (fun _ => rfl) (hall i hi)
    refine ⟨o, ?_⟩
    unfold settledAt
    rw [callAt_run, hcall]
    simpa using ho
  · intro r pre post o hpre
    rw [runExec_append]
    exact runExec_outcome_some jparse post _ o hpre
  · intro r evs2 hnm
    exact (runExec_noMatch_outcome jparse evs2 (pendingExec r) hnm).1

/-- C1 (witness): the amended settlement theorem instantiated at two
concurrent calls with ids 7 and 9, a matching response line for id 7,
and the elapse of both timeout budgets. -/
theorem correlator_settled_exactly_once_amended_witness :
    ((([7, 9] : List Nat).map requestIdOf).Pairwise (fun a b => a ≠ b)) ∧
    ((∀ (pre post : List Ev) (i : Nat) (o : Outcome),
        [Ev.line "r7", Ev.timeout 0, Ev.timeout 1] = pre ++ post →
        settledAt (run jparseW (initSys [7, 9]) pre) i = some o →
        settledAt (run jparseW (initSys [7, 9])
          [Ev.line "r7", Ev.timeout 0, Ev.timeout 1]) i = some o) ∧
      (killFreeB [Ev.line "r7", Ev.timeout 0, Ev.timeout 1] = true →
        (∀ i, i < ([7, 9] : List Nat).length →
          hasTimeout i [Ev.line "r7", Ev.timeout 0, Ev.timeout 1] = true) →
        ∀ i, i < ([7, 9] : List Nat).length →
          ∃ o, settledAt (run jparseW (initSys [7, 9])
            [Ev.line "r7", Ev.timeout 0, Ev.timeout 1]) i = some o) ∧
      (∀ (r : Nat) (pre post : List Ev) (o : Outcome),
          (runExec jparseW (pendingExec r) pre).outcome = some o →
          (runExec jparseW (pendingExec r) (pre ++ post)).outcome = some o) ∧
      (∀ (r : Nat) (evs2 : List Ev),
          noMatchingLine jparseW (requestIdOf r) evs2 = true →
          (runExec jparseW (pendingExec r) evs2).outcome = none)) :=
  ⟨by decide,
    correlator_settled_exactly_once_amended jparseW [7, 9] (by decide)
      [Ev.line "r7", Ev.timeout 0, Ev.timeout 1]⟩

/-- C2 (counterexample): when the random source yields the same draw
twice, two calls issued concurrently through the correlator are both
outstanding with the same id 5, so the id is not unique among
outstanding calls. -/
theorem duplicate_random_ids_cex :
    ((initSys [5, 5]).calls.map (fun c => c.requestId)) = [5, 5] ∧
    ((initSys [5, 5]).calls.map (fun c => (c.outcome.isNone, c.rlOpen))) =
      [(true, true), (true, true)] ∧
    ¬ (((initSys [5, 5]).calls.map (fun c => c.requestId)).Pairwise
        (fun a b => a ≠ b)) :=
  ⟨rfl, rfl, by decide⟩

/-- C2 (amended): every call is assigned an id drawn from the random
source into the range 0..9999; the ids of two calls coincide exactly
when their random draws coincide modulo 10000, so uniqueness among
outstanding calls is not enforced. -/
theorem requestId_range_and_collision (r s : Nat) :
    0 ≤ requestIdOf r ∧ requestIdOf r < 10000 ∧
      (requestIdOf r = requestIdOf s ↔ r % 10000 = s % 10000) := by
  unfold requestIdOf
  simp only [Int.ofNat_eq_natCast]
  refine ⟨?_, ?_, ?_⟩ <;> omega

/-- C3 (counterexample): a call issued through `executeMcpCommand`
registers no timeout: when its 30-time-unit budget elapses with no
response delivered, no timer callback runs, the call is not settled
with a timed-out failure, and its handler stays attached.  This
refutes the claim that every call issued through the correlator
registers a timeout at issue time and is settled as timed out when no
matching response arrives in the budget. -/
theorem executeMcpCommand_no_timeout_cex :
    (runExec jparseW (pendingExec 9) [Ev.timeout 0]).outcome = none ∧
    (runExec jparseW (pendingExec 9) [Ev.timeout 0]).handlerOn = true :=
  ⟨rfl, rfl⟩

/-- C3 (amended): a call issued through `callMcpMethod` registers a
pending timeout with a budget of 30000 ms (30 time units) at issue
time, and if no line matching its id is delivered and the child stays
alive, the elapse of that budget settles the call as rejected with
the timeout failure, with its readline interface closed and its timer
cleared (the pending entry removed).  A call issued through
`executeMcpCommand` registers no timeout and is never settled while
no matching response line is delivered. -/
theorem callMcpMethod_timeout_amended (jparse : String → Option Json)
    (r i : Nat) (evs : List Ev) :
    (pendingCall r).timeoutActive = true ∧
    (pendingCall r).budgetMs = 30000 ∧
    (noMatchingLine jparse (requestIdOf r) evs = true →
      killFreeB evs = true →
      hasTimeout i evs = true →
      runCall jparse i evs (pendingCall r) = timedOutCall r) ∧
    (∀ evs2 : List Ev,
      noMatchingLine jparse (requestIdOf r) evs2 = true →
      (runExec jparse (pendingExec r) evs2).outcome = none) := by
  refine ⟨rfl, rfl, ?_, ?_⟩
  · intro hm hk ht
    exact (runCall_twoState jparse i r evs (pendingCall r) (Or.inl rfl) hm hk).2 ht
  · intro evs2 hm
    exact (runExec_noMatch_outcome jparse evs2 (pendingExec r) hm).1

/-- C3 (witness): the amended timeout theorem exercised at a call with
draw 3, one unmatched diagnostic line, and the elapse of its budget. -/
theorem callMcpMethod_timeout_amended_witness :
    noMatchingLine jparseW (requestIdOf 3) [Ev.line "noise", Ev.timeout 0] = true ∧
    killFreeB [Ev.line "noise", Ev.timeout 0] = true ∧
    hasTimeout 0 [Ev.line "noise", Ev.timeout 0] = true ∧
    runCall jparseW 0 [Ev.line "noise", Ev.timeout 0] (pendingCall 3) =
      timedOutCall 3 :=
  ⟨rfl, rfl, rfl,
    (callMcpMethod_timeout_amended jparseW 3 0
      [Ev.line "noise", Ev.timeout 0]).2.2.1 rfl rfl rfl⟩

/-- C4 (counterexample): with the call of id 7 pending (unsettled,
interface open), killing the child settles nothing: after the
shutdown the call is still unsettled, and its timeout has been
cleared by the close of its readline interface, so it can never be
settled as a failure later either.  This refutes the claim that
shutting down forcibly settles, as failure, every call still pending
at the moment of the shutdown. -/
theorem shutdown_settles_nothing_cex :
    settledAt (initSys [7]) 0 = none ∧
    (callAt (initSys [7]) 0).map (fun c => c.rlOpen) = some true ∧
    settledAt (run jparseW (initSys [7]) [Ev.kill]) 0 = none ∧
    (callAt (run jparseW (initSys [7]) [Ev.kill]) 0).map
      (fun c => c.timeoutActive) = some false :=
  ⟨rfl, rfl, rfl, rfl⟩

/-- C4 (amended): shutting down the session kills the child without
settling any call: the outcome of every call, pending or settled, is
exactly what it was before the kill, while every readline interface
is closed and every pending timer cleared; and killing more than once
is an idempotent no-op, for both correlators. -/
theorem shutdown_kills_without_settling (jparse : String → Option Json)
    (sys : Sys) :
    step jparse (step jparse sys Ev.kill) Ev.kill = step jparse sys Ev.kill ∧
    (step jparse sys Ev.kill).alive = false ∧
    (∀ i, settledAt (step jparse sys Ev.kill) i = settledAt sys i) ∧
    (∀ s : ExecCallState,
      execStep jparse (execStep jparse s Ev.kill) Ev.kill =
        execStep jparse s Ev.kill ∧
      (execStep jparse s Ev.kill).outcome = s.outcome) := by
  refine ⟨?_, rfl, ?_, ?_⟩
  · rw [step_kill_eq_killSys, step_kill_eq_killSys]
    simp only [killSys, List.map_map]
    congr 1
  · intro i
    rw [step_kill_eq_killSys]
    simp only [settledAt, callAt, killSys, List.getElem?_map]
    cases sys.calls[i]? with
    | none => rfl
    | some c => rfl
  · intro s
    exact ⟨rfl, rfl⟩

/-- C5: a response line arriving after the timeout of its call has
fired is discarded.  If after some run a call of the session is
settled with the timeout failure, then delivering any further line —
in particular one carrying that same id — leaves the call completely
unchanged: its readline interface was closed by the timeout callback,
so the handler never sees the line, and the outcome remains the
timeout failure. -/
theorem late_response_after_timeout_discarded (jparse : String → Option Json)
    (draws : List Nat) (evs : List Ev) (i : Nat) (l : String)
    (h : settledAt (run jparse (initSys draws) evs) i =
      some (Outcome.rejected McpFailure.timedOut)) :
    callAt (run jparse (initSys draws) (evs ++ [Ev.line l])) i =
      callAt (run jparse (initSys draws) evs) i ∧
    settledAt (run jparse (initSys draws) (evs ++ [Ev.line l])) i =
      some (Outcome.rejected McpFailure.timedOut) := by
  have hJ : ∀ c, callAt (run jparse (initSys draws) evs) i = some c →
      TimedOutClosed c := by
    intro c hc
    rw [callAt_run] at hc
    cases hinit : callAt (initSys draws) i with
    | none => rw [hinit] at hc; simp at hc
    | some c0 =>
      rw [hinit] at hc
      simp only [Option.map_some'] at hc
      simp only [Option.map_some', Option.some_inj] at hc
      have hc0 : TimedOutClosed c0 := by
        simp only [callAt, initSys, List.getElem?_map] at hinit
        cases hd : draws[i]? with
        | none => rw [hd] at hinit; simp at hinit
        | some d =>
          rw [hd] at hinit
          simp only [Option.map_some', Option.some_inj] at hinit
          rw [← hinit]
          exact pendingCall_timedOutClosed d
      rw [← hc]
      exact runCall_timedOutClosed jparse i evs c0 hc0
  cases hc : callAt (run jparse (initSys draws) evs) i with
  | none =>
    exfalso
    unfold settledAt at h
    rw [hc] at h
    simp at h
  | some c =>
    have hout : c.outcome = some (Outcome.rejected McpFailure.timedOut) := by
      unfold settledAt at h
      rw [hc] at h
      simpa using h
    have hcl : c.rlOpen = false := ((hJ c hc) hout).1
    have hA : callAt (run jparse (initSys draws) (evs ++ [Ev.line l])) i =
        some c := by
      rw [run_append]
      have hrun1 : run jparse (run jparse (initSys draws) evs) [Ev.line l] =
          step jparse (run jparse (initSys draws) evs) (Ev.line l) := rfl
      rw [hrun1, callAt_step, hc]
      simp only [Option.map_some']
      have he : evCall jparse (Ev.line l) i c = c :=
        onLine_closed jparse c l hcl
      rw [he]
    refine ⟨hA, ?_⟩
    unfold settledAt
    rw [hA]
    simpa using hout

/-- C5 (witness): the call of id 7 times out, then a matching
response line for id 7 arrives late and is discarded. -/
theorem late_response_after_timeout_discarded_witness :
    settledAt (run jparseW (initSys [7]) [Ev.timeout 0]) 0 =
      some (Outcome.rejected McpFailure.timedOut) ∧
    (callAt (run jparseW (initSys [7]) ([Ev.timeout 0] ++ [Ev.line "r7"])) 0 =
      callAt (run jparseW (initSys [7]) [Ev.timeout 0]) 0 ∧
     settledAt (run jparseW (initSys [7]) ([Ev.timeout 0] ++ [Ev.line "r7"])) 0 =
      some (Outcome.rejected McpFailure.timedOut)) :=
  ⟨rfl, late_response_after_timeout_discarded jparseW [7] [Ev.timeout 0] 0 "r7" rfl⟩

/-- C6: a line that parses as a response envelope but whose id matches
no pending call settles no call and raises no error: one step of the
session on that line is the identity on the whole session state (the
handlers either are detached or fall through the id comparison), and
likewise the `executeMcpCommand` handler of any pending call with a
different id returns its state unchanged. -/
theorem unmatched_response_settles_nothing (jparse : String → Option Json)
    (sys : Sys) (l : String) (r : Json)
    (_hparse : jparse l = some r)
    (hnomatch : ∀ c ∈ sys.calls, c.rlOpen = true →
      lineMatches jparse c.requestId l = false) :
    step jparse sys (Ev.line l) = sys ∧
    (∀ s : ExecCallState, s.handlerOn = true →
      lineMatches jparse s.requestId l = false →
      messageHandler jparse s l = s) := by
  constructor
  · cases sys with
    | mk calls alive =>
      have hid : ∀ c ∈ calls, onLine jparse c l = c := by
        intro c hc
        cases hro : c.rlOpen with
        | false => exact onLine_closed jparse c l hro
        | true => exact onLine_noMatch jparse c l (hnomatch c hc hro)
      simp only [step]
      rw [stepCalls_line_id jparse l calls 0 hid]
  · intro s _ hm
    exact messageHandler_skip jparse s l (Or.inr hm)

/-- C6 (witness): the session holds one pending call of id 7; the
line r9 parses to a response envelope with id 9, which matches no
pending call, and the session state is unchanged. -/
theorem unmatched_response_settles_nothing_witness :
    jparseW "r9" = some (Json.obj [("id", Json.num 9), ("result", Json.num 2)]) ∧
    (∀ c ∈ (initSys [7]).calls, c.rlOpen = true →
      lineMatches jparseW c.requestId "r9" = false) ∧
    (step jparseW (initSys [7]) (Ev.line "r9") = initSys [7] ∧
      (∀ s : ExecCallState, s.handlerOn = true →
        lineMatches jparseW s.requestId "r9" = false →
        messageHandler jparseW s "r9" = s)) :=
  ⟨rfl, by decide,
    unmatched_response_settles_nothing jparseW (initSys [7]) "r9"
      (Json.obj [("id", Json.num 9), ("result", Json.num 2)]) rfl (by decide)⟩

/-- C7: a line JSON.parse throws on — diagnostic or non-protocol text
— crashes nothing and settles no call: the decode failure is caught
in the handler of every call, one step of the session on that line is
the identity, and the `executeMcpCommand` handler likewise returns
its state unchanged. -/
theorem unparseable_line_settles_nothing (jparse : String → Option Json)
    (sys : Sys) (l : String) (h : jparse l = none) :
    step jparse sys (Ev.line l) = sys ∧
    (∀ s : ExecCallState, messageHandler jparse s l = s) := by
  constructor
  · cases sys with
    | mk calls alive =>
      simp only [step]
      rw [stepCalls_line_id jparse l calls 0
        (fun c _ => onLine_parseFail jparse c l h)]
  · intro s
    exact messageHandler_parseFail jparse s l h

/-- C7 (witness): a diagnostic line that is not JSON, delivered to a
session with two pending calls, changes nothing. -/
theorem unparseable_line_settles_nothing_witness :
    jparseW "warning: rate limit low" = none ∧
    (step jparseW (initSys [7, 9]) (Ev.line "warning: rate limit low") =
        initSys [7, 9] ∧
      (∀ s : ExecCallState,
        messageHandler jparseW s "warning: rate limit low" = s)) :=
  ⟨rfl,
    unparseable_line_settles_nothing jparseW (initSys [7, 9])
      "warning: rate limit low" rfl⟩

/-- C8: a matching response without an error field resolves the call
with the decoded payload: when the nested `result.content[0].text`
payload is truthy, the handler applies exactly one further level of
JSON.parse to it — if that parse succeeds the call resolves with the
parsed value, and if it fails the call resolves with the raw text
unchanged. -/
theorem matched_success_response_decode (jparse : String → Option Json)
    (c : CallState) (l : String) (resp idv : Json)
    (hopen : c.rlOpen = true)
    (hnone : c.outcome = none)
    (hparse : jparse l = some resp)
    (hid : jsAccess resp "id" = some idv)
    (hmatch : isIdMatch idv c.requestId = true)
    (hnoerr : resp.getField "error" = Json.undef)
    (htext : (resultTextChain resp).truthy = true) :
    (∀ p, jparse (resultTextChain resp).jsToString = some p →
      (onLine jparse c l).outcome = some (Outcome.resolved p)) ∧
    (jparse (resultTextChain resp).jsToString = none →
      (onLine jparse c l).outcome = some (Outcome.resolved (resultTextChain resp))) := by
  have herr : (resp.getField "error").truthy = false := by
    rw [hnoerr]; rfl
  constructor
  · intro p hp
    simp [onLine, hopen, hparse, hid, hmatch, herr, htext, hp, settle,
      settleOpt, hnone]
  · intro hp
    simp [onLine, hopen, hparse, hid, hmatch, herr, htext, hp, settle,
      settleOpt, hnone]

/-- C8 (witness): the response for id 7 nests the serialized payload
`innerpayload` inside `result.content[0].text`; the handler decodes
it one level and resolves the call with the parsed object. -/
theorem matched_success_response_decode_witness :
    (pendingCall 7).rlOpen = true ∧
    jparseW "rnest" = some respNest ∧
    jsAccess respNest "id" = some (Json.num 7) ∧
    isIdMatch (Json.num 7) (pendingCall 7).requestId = true ∧
    respNest.getField "error" = Json.undef ∧
    (resultTextChain respNest).truthy = true ∧
    ((∀ p, jparseW (resultTextChain respNest).jsToString = some p →
        (onLine jparseW (pendingCall 7) "rnest").outcome =
          some (Outcome.resolved p)) ∧
      (jparseW (resultTextChain respNest).jsToString = none →
        (onLine jparseW (pendingCall 7) "rnest").outcome =
          some (Outcome.resolved (resultTextChain respNest)))) :=
  ⟨rfl, rfl, rfl, rfl, rfl, rfl,
    matched_success_response_decode jparseW (pendingCall 7) "rnest" respNest
      (Json.num 7) rfl rfl rfl rfl rfl rfl rfl⟩

/-- C9: the child process is signaled to terminate on every exit path
of the session.  In `implementWithPrompt` the finally block kills the
spawned child whatever the body produced — a result or a thrown error
(including a timeout failure) — and passes the outcome of the body
through unchanged; `runManualImplementation` kills the child both on
its success path and in its catch block; and the killed session is
not alive. -/
theorem session_always_kills_child {α β : Type} (spawnErr : α)
    (sys0 : Sys) (body : Sys → Except α β × Sys) :
    (implementWithPrompt spawnErr (some sys0) body).1 = (body sys0).1 ∧
    (implementWithPrompt spawnErr (some sys0) body).2 =
      some (killSys (body sys0).2) ∧
    (killSys (body sys0).2).alive = false ∧
    (runManualImplementation sys0 body).2 = killSys (body sys0).2 := by
  refine ⟨rfl, rfl, rfl, ?_⟩
  unfold runManualImplementation
  rcases hb : body sys0 with ⟨r, s1⟩
  cases r <;> rfl

/-- C10: if any of the seven required environment variables is absent
or empty, the module top level logs the error and reaches
process.exit(1) before any child process is spawned or any call
issued. -/
theorem missing_env_exits_early (e : EnvVars)
    (h : envTruthy e.prBody = false ∨ envTruthy e.repoOwner = false ∨
      envTruthy e.repoName = false ∨ envTruthy e.prNumber = false ∨
      envTruthy e.branchName = false ∨ envTruthy e.aiApiKey = false ∨
      envTruthy e.githubToken = false) :
    programStart e =
      StartOutcome.exited 1 "Missing required environment variables" := by
  have hv : envValid e = false := by
    unfold envValid
    rcases h with h | h | h | h | h | h | h <;> simp [h]
  simp [programStart, hv]

/-- C10 (witness): an environment whose access token is the empty
string makes the program exit with status 1 at once. -/
theorem missing_env_exits_early_witness :
    envTruthy (EnvVars.mk (some "body") (some "owner") (some "repo")
      (some "1") (some "branch") (some "key") (some "")).githubToken = false ∧
    programStart (EnvVars.mk (some "body") (some "owner") (some "repo")
      (some "1") (some "branch") (some "key") (some "")) =
      StartOutcome.exited 1 "Missing required environment variables" :=
  ⟨rfl,
    missing_env_exits_early _
      (Or.inr (Or.inr (Or.inr (Or.inr (Or.inr (Or.inr rfl))))))⟩
